import Mathlib

/-
Verification of the maxun browser-side extraction engine
(`maxun-core/src/browserSide/scraper.js`) against its natural-language
specification.  The definitions below are a shallow embedding of the
JavaScript source: pure functions become Lean functions, DOM state is
passed explicitly, host-tree queries (CSS selector resolution,
hit-testing) are oracles supplied as fields of a document model, and
JavaScript exceptions are modelled with `Except`.
-/

set_option autoImplicit false

namespace Maxun

/-! ## DOM element model (parent-chain view)

`GetSelectorStructural` and the heuristic locator only read an element's
`tagName`, `offsetWidth`/`offsetHeight` and its `parentElement` chain, so
an element is modelled as exactly those fields.  Structural equality on
this type plays the role of JavaScript reference equality `===`; distinct
DOM nodes relevant to the claims are given distinguishable field values.
-/

inductive DomElem where
  | root (tagName : String) (offsetWidth offsetHeight : Nat)
  | child (tagName : String) (offsetWidth offsetHeight : Nat)
      (parent : DomElem)
deriving DecidableEq, Repr

def DomElem.tagName : DomElem → String
  | .root t _ _ => t
  | .child t _ _ _ => t

def DomElem.offsetWidth : DomElem → Nat
  | .root _ w _ => w
  | .child _ w _ _ => w

def DomElem.offsetHeight : DomElem → Nat
  | .root _ _ h => h
  | .child _ _ h _ => h

/-- Accessor for `element.parentElement`: `null` for an element with no parent. -/
def DomElem.parentElement : DomElem → Option DomElem
  | .root _ _ _ => none
  | .child _ _ _ p => some p

/-- Source line 3: `const area = (element) => element.offsetHeight * element.offsetWidth`. -/
def area (element : DomElem) : Nat :=
  element.offsetHeight * element.offsetWidth

/-- Function `GetSelectorStructural` (scraper.js lines 23–34): tag-only ancestry
selector, stopping at a `BODY` tag or at an element with no parent. -/
def GetSelectorStructural (element : DomElem) : String :=
  if element.tagName == "BODY" then "BODY"
  else
    match element with
    | .child tag _ _ p => GetSelectorStructural p ++ " > " ++ tag
    | .root tag _ _ => tag

/-! ## The generalization loop of `scrapableHeuristics` (lines 117–123)

```js
const different = (x, i, a) => a.findIndex((e) => e === x) === i;
while (out.map((x) => x.parentElement).every(different)
  && out.forEach((x) => x.parentElement !== null)) {
  out = out.map((x) => x.parentElement ?? x);
}
```
-/

/-- Predicate `different = (x, i, a) => a.findIndex((e) => e === x) === i`, applied
through `.every`: each entry's first occurrence index is its own index,
i.e. the list is duplicate-free. -/
def everyDifferent {α : Type} [BEq α] (a : List α) : Bool :=
  a.enum.all (fun p => a.findIdx (fun e => e == p.2) == p.1)

/-- Guard operand `out.forEach((x) => x.parentElement !== null)`: `Array.prototype.forEach`
returns `undefined` regardless of the callback, and `undefined` is falsy,
so as the right operand of `&&` this subexpression always evaluates to a
falsy value.  Modelled as the constant `false`. -/
def forEachTruthy {α : Type} (out : List α) : Bool :=
  let _ := out
  false

/-- The `while` loop of lines 120–123: substitute every element by its
parent while the loop guard holds.  The guard is
`everyDifferent (parents) && forEachTruthy out`, which is always false
(see `forEachTruthy`), so the recursion is unreachable. -/
def genLoop {α : Type} [BEq α] (parentElement : α → Option α) (out : List α) :
    List α :=
  if h : everyDifferent (out.map parentElement) && forEachTruthy out then
    genLoop parentElement (out.map (fun x => (parentElement x).getD x))
  else out
termination_by out.length
decreasing_by exact absurd h (by simp [forEachTruthy])

/-! ## JavaScript string builtins

`String.prototype.split`, `trim`, `startsWith` and `indexOf` are
host-runtime primitives; they are modelled here by structural recursion
over the character list of a `String` (the corresponding core-Lean
functions are byte-position-based and are avoided only for that reason;
the semantics is the ordinary one).  `split` takes a non-empty separator
and keeps empty segments, as in JavaScript. -/

/-- The pattern `pat` occurs at the head of `s`. -/
def isSegAt (pat s : List Char) : Bool :=
  match pat, s with
  | [], _ => true
  | _ :: _, [] => false
  | p :: ps, c :: cs => p == c && isSegAt ps cs

/-- The pattern `pat` occurs somewhere in `s`. -/
def containsSeg (pat : List Char) : List Char → Bool
  | [] => isSegAt pat []
  | c :: cs => isSegAt pat (c :: cs) || containsSeg pat cs

/-- Split on each non-overlapping occurrence of `sep`, scanning left to
right; `fuel` (instantiated with the string length, which bounds the
number of scanning steps) makes the recursion structural. -/
def jsSplitAux (sep : List Char) : Nat → List Char → List Char → List (List Char)
  | _, [], acc => [acc.reverse]
  | 0, s, acc => [acc.reverse ++ s]
  | fuel + 1, c :: cs, acc =>
      if isSegAt sep (c :: cs) then
        acc.reverse :: jsSplitAux sep fuel (List.drop (sep.length - 1) cs) []
      else jsSplitAux sep fuel cs (c :: acc)

/-- JavaScript `s.split(sep)` for a non-empty separator. -/
def jsSplit (s sep : String) : List String :=
  (jsSplitAux sep.data s.data.length s.data []).map String.mk

/-- JavaScript `s.trim()`: strip leading and trailing whitespace. -/
def jsTrim (s : String) : String :=
  String.mk (((s.data.dropWhile Char.isWhitespace).reverse.dropWhile
    Char.isWhitespace).reverse)

/-- JavaScript `s.startsWith(pat)`. -/
def strStarts (s pat : String) : Bool := isSegAt pat.data s.data

/-- A numeral over decimal digit characters, `none` otherwise. -/
def parseNatChars (ds : List Char) : Option Nat :=
  if ds.isEmpty || !(ds.all Char.isDigit) then none
  else some (ds.foldl (fun acc c => acc * 10 + (c.toNat - 48)) 0)

/-- A strictly ascending chain of naturals (each entry below the
next). -/
def strictChain : List Nat → Bool
  | [] => true
  | [_] => true
  | a :: b :: r => decide (a < b) && strictChain (b :: r)

/-! ## `window.scrape`: per-record image and text keys (lines 144–179) -/

/-- The two attributes of an `<img>` node read by `window.scrape`.  A
missing attribute reads as the empty string (`getAttribute` is not used
here; the IDL attributes `srcset`/`src` reflect as strings). -/
structure Img where
  srcset : String
  src : String
deriving DecidableEq, Repr

/-- JavaScript `haystack.indexOf(needle) !== -1`: some position of `haystack` starts
with `needle`. -/
def strContains (haystack needle : String) : Bool :=
  containsSeg needle.data haystack.data

/-- Lines 150–167: the derived image URL.  With a non-empty `srcset`, the
first space-separated token of the *last* comma-separated candidate; with
no `srcset`, the `src` attribute unless it contains `data:`; otherwise
`undefined` (`none`). -/
def imgUrlOf (x : Img) : Option String :=
  if x.srcset != "" then
    let urls := jsSplit x.srcset ", "
    some ((jsSplit (urls.getLastD "") " ").headD "")
  else if strContains x.src "data:" == false then
    some x.src
  else none

/-- Line 171: `...(imgUrl ? { [`img_i`]: imgUrl } : {})` — the key is
emitted only when the derived URL is truthy (present and non-empty). -/
def imgEntry (i : Nat) (x : Img) : List (String × String) :=
  match imgUrlOf x with
  | some imgUrl =>
      if imgUrl != "" then [("img_" ++ toString i, imgUrl)] else []
  | none => []

/-- An image `x` is accepted exactly when `imgEntry` emits a key for it. -/
def imgAccepted (x : Img) : Bool :=
  match imgUrlOf x with
  | some imgUrl => imgUrl != ""
  | none => false

/-- Lines 148–173: the `reduce` over `record.querySelectorAll('img')`,
with the reduce index `i` taken over *all* contained images.  Object
spread with distinct keys is modelled as ordered entry-list append. -/
def scrapeImgs (imgs : List Img) : List (String × String) :=
  imgs.enum.foldl (fun p ix => p ++ imgEntry ix.1 ix.2) []

/-- JavaScript `String(i).padStart(4, '0')`. -/
def pad4 (n : Nat) : String :=
  let s := toString n
  String.mk (List.replicate (4 - s.length) '0') ++ s

/-- Lines 174–178: one `record_NNNN` key per line of `innerText`, with
the line index enumerated independently of the image keys. -/
def scrapeTexts (innerText : String) : List (String × String) :=
  (jsSplit innerText "\n").enum.map
    (fun ix => ("record_" ++ pad4 ix.1, jsTrim ix.2))

/-- The data of one matched element that `window.scrape` reads: its
contained `<img>` nodes in document order, and its rendered text. -/
structure ScrapeEl where
  imgs : List Img
  innerText : String

/-- Lines 147–179: one crude record (image keys first, then text keys). -/
def scrapeRecord (el : ScrapeEl) : List (String × String) :=
  scrapeImgs el.imgs ++ scrapeTexts el.innerText

/-- Modelled from the spec: the width in a srcset candidate such as
`"b.jpg 1024w"` — the numeral of its second space-separated token with
the trailing unit letter removed. -/
def candWidth (cand : String) : Nat :=
  (parseNatChars (((jsSplit cand " ").getD 1 "").data.dropLast)).getD 0

/-- Modelled from the spec: "the derived URL is the widest candidate of
the srcset … also when candidates are not listed in ascending width
order" — the URL token of the candidate with the largest width. -/
def widestCandidate (srcset : String) : String :=
  let cands := jsSplit srcset ", "
  let best := cands.foldl
    (fun b c => if candWidth c > candWidth b then c else b) (cands.headD "")
  (jsSplit best " ").headD ""

/-! ## URL resolution and `getElementValue` (lines 249–268)

`new URL(rel, base)` is a host (WHATWG) API; it is modelled here for the
four cases arising with string bases of shape `scheme://host[...path]`:
an absolute input, a scheme-relative input, a host-relative input, and a
path-relative input resolved in the base path's directory.  Dot-segment
normalisation, queries and fragments are not modelled (no claim uses
them). -/

/-- The document location: `window.location.origin` is
`scheme ++ "://" ++ host`, and `path` is the document's path
(`/dir/index.html`), not part of the origin. -/
structure Loc where
  scheme : String
  host : String
  path : String
deriving DecidableEq, Repr

/-- The directory of a path: everything up to and including the last
`/`, and `/` when the path has none (a parsed base URL's path is never
empty). -/
def dirOf (path : String) : String :=
  let r := path.data.reverse.dropWhile (fun c => c ≠ '/')
  if r.isEmpty then "/" else String.mk r.reverse

/-- Model of `new URL(rel, scheme ++ "://" ++ host ++ basePath).href`. -/
def resolveURL (scheme host basePath rel : String) : String :=
  if strContains rel "://" then rel
  else if strStarts rel "//" then scheme ++ ":" ++ rel
  else if strStarts rel "/" then scheme ++ "://" ++ host ++ rel
  else scheme ++ "://" ++ host ++ dirOf basePath ++ rel

/-- The element data read by value extraction: attributes
(`getAttribute`, `none` when absent), and the rendered/raw text.  The
DOM guarantees `innerText`, `textContent` and `innerHTML` are strings,
so the source's defensive `?.` never meets `undefined` and the fields
are total here. -/
structure SchemaElem where
  attrs : List (String × String)
  innerText : String
  textContent : String
  innerHTML : String
deriving DecidableEq, Repr

/-- Model of `element.getAttribute(name)`. -/
def getAttr (el : SchemaElem) (name : String) : Option String :=
  (el.attrs.find? (fun kv => kv.1 == name)).map (fun kv => kv.2)

/-- Function `getElementValue` (lines 249–268).  `href`/`src` are resolved with
`new URL(raw, window.location.origin)` — the base is the *origin*, whose
path is empty — and a falsy raw value (absent or empty attribute) gives
`null`.  `innerText`/`textContent` trim; any other name is
`getAttribute(name) || innerText.trim()`. -/
def getElementValue (element : Option SchemaElem) (attr : String)
    (loc : Loc) : Option String :=
  match element with
  | none => none
  | some el =>
    if attr == "href" then
      match getAttr el "href" with
      | some v =>
          if v == "" then none else some (resolveURL loc.scheme loc.host "" v)
      | none => none
    else if attr == "src" then
      match getAttr el "src" with
      | some v =>
          if v == "" then none else some (resolveURL loc.scheme loc.host "" v)
      | none => none
    else if attr == "innerText" then some (jsTrim el.innerText)
    else if attr == "textContent" then some (jsTrim el.textContent)
    else
      match getAttr el attr with
      | some v => if v == "" then some (jsTrim el.innerText) else some v
      | none => some (jsTrim el.innerText)

/-- Modelled from the spec: "`href`/`src` resolve to an absolute URL
against the current document location (the full URL of the containing
document, including its path)" — identical to `getElementValue` except
that the resolution base carries the document's path. -/
def getElementValueSpecLoc (element : Option SchemaElem) (attr : String)
    (loc : Loc) : Option String :=
  match element with
  | none => none
  | some el =>
    if attr == "href" then
      match getAttr el "href" with
      | some v =>
          if v == "" then none
          else some (resolveURL loc.scheme loc.host loc.path v)
      | none => none
    else if attr == "src" then
      match getAttr el "src" with
      | some v =>
          if v == "" then none
          else some (resolveURL loc.scheme loc.host loc.path v)
      | none => none
    else if attr == "innerText" then some (jsTrim el.innerText)
    else if attr == "textContent" then some (jsTrim el.textContent)
    else
      match getAttr el attr with
      | some v => if v == "" then some (jsTrim el.innerText) else some v
      | none => some (jsTrim el.innerText)

/-! ## `window.scrapeSchema` (lines 191–338)

Nodes are identified by their paths from the document node: the document
is `[]`, and a child's path extends its parent's path by the index among
its siblings.  `a.contains(b)` holds exactly when `a`'s path is an
initial segment of `b`'s, and `parentNode` drops the last step (`null`
at the document).  Selector resolution (`findAllElements`, lines
206–247) delegates entirely to the host's `querySelectorAll` /
shadow-root queries (spec §6, external interfaces); it is modelled as an
oracle giving each field's resolved element list in document order. -/

/-- A node path from the document node (`[]` is the document itself). -/
abbrev Path := List Nat

/-- DOM `a.contains(b)`: `b` is `a` itself or a descendant of `a`. -/
def pathContains : Path → Path → Bool
  | [], _ => true
  | _ :: _, [] => false
  | a :: as, b :: bs => a == b && pathContains as bs

/-- DOM `node.parentNode`: `null` at the document node. -/
def parentNode (p : Path) : Option Path :=
  if p.isEmpty then none else some p.dropLast

/-- One field configuration: `{selector, attribute?, shadow?}`.  The
source's `attribute` key is spelled `attr` here (`attribute` is reserved
in Lean). -/
structure FieldCfg where
  selector : String
  shadow : Bool
  attr : String
deriving DecidableEq, Repr

/-- The document as seen by `scrapeSchema`: the resolved element list per
field configuration (host selector queries, lines 206–247), the data of
each element, and the document location. -/
structure SchemaDoc where
  findAllElements : FieldCfg → List Path
  elemData : Path → SchemaElem
  loc : Loc

/-- A result record: ordered field entries.  The value is
`none` for JavaScript `undefined` (no element found for the field),
`some none` for `null`, and `some (some s)` for the string `s`. -/
abbrev ResultRec := List (String × Option (Option String))

/-- Function `getSeedKey` (lines 271–278): the first field whose resolved
element count equals the maximum count.  (`Math.max` over an empty
spread would give `-Infinity` and the source would fault on an empty
schema; the `0` default is never reached by the theorems, which require
a found seed.) -/
def getSeedKey (doc : SchemaDoc) (lists : List (String × FieldCfg)) :
    Option (String × FieldCfg) :=
  let maxLength :=
    (lists.map (fun kv => (doc.findAllElements kv.2).length)).foldl max 0
  lists.find? (fun kv => (doc.findAllElements kv.2).length == maxLength)

/-- Callback `isUniqueChild` (lines 284–286): the candidate's parent
contains exactly one of the seed elements. -/
def isUniqueChild (elements : List Path) (e : Path) : Bool :=
  (elements.filter (fun elem =>
    match parentNode e with
    | some par => pathContains par elem
    | none => false)).length == 1

/-- Loop of lines 288–290: ascend `candidate = candidate.parentNode`
while the candidate exists and is a unique child. -/
def mbeWalk (elements : List Path) : Option Path → Option Path
  | none => none
  | some c =>
      if isUniqueChild elements c then mbeWalk elements (parentNode c)
      else some c
termination_by candidate =>
  match candidate with
  | none => 0
  | some c => c.length + 1
decreasing_by
  simp only [parentNode]
  split
  · omega
  · rename_i hif c' hne
    split at hne
    · simp at hne
    · injection hne with h
      subst h
      rename_i hcne
      have h2 := List.length_dropLast c
      have h3 : c ≠ [] := by simpa using hcne
      have h4 : 1 ≤ c.length := by
        cases c with
        | nil => exact absurd rfl h3
        | cons a as => simp
      omega

/-- Function `getMBEs` (lines 281–294). -/
def getMBEs (elements : List Path) : List (Option Path) :=
  elements.map (fun element => mbeWalk elements (some element))

/-- Lines 301–310, body of the `MBEs.map`: for each field, the first
resolved element contained in the MBE, its extracted value — or
`undefined` when no element of the field lies inside the MBE. -/
def mbeRecord (doc : SchemaDoc) (lists : List (String × FieldCfg))
    (mbe : Path) : ResultRec :=
  lists.map (fun kv =>
    let elem := (doc.findAllElements kv.2).find? (fun e => pathContains mbe e)
    (kv.1, elem.map (fun e =>
      getElementValue (some (doc.elemData e)) kv.2.attr doc.loc)))

/-- Lines 297–310: the MBE-path results, one record per seed element.
The walk never ascends past the document (its guard fails there), so the
`none` branch is unreachable and yields a junk empty record. -/
def mbeResults (doc : SchemaDoc) (lists : List (String × FieldCfg)) :
    List ResultRec :=
  match getSeedKey doc lists with
  | none => []
  | some seed =>
      (getMBEs (doc.findAllElements seed.2)).map (fun mbe =>
        match mbe with
        | some m => mbeRecord doc lists m
        | none => [])

/-- Line 313: some record has some field equal to `undefined`. -/
def hasUndefinedField (r : ResultRec) : Bool :=
  r.any (fun kv => kv.2.isNone)

/-- The fallback trigger (line 313). -/
def fallbackTriggered (doc : SchemaDoc)
    (lists : List (String × FieldCfg)) : Bool :=
  (mbeResults doc lists).any hasUndefinedField

/-- Lines 327–330: `if (!results[index]) results[index] = {};
results[index][key] = value` — pad the result array with fresh empty
records up to `index`, then append the entry to the record there. -/
def setRecAt (results : List ResultRec) (index : Nat) (key : String)
    (v : Option String) : List ResultRec :=
  let padded :=
    if index < results.length then results
    else results ++ List.replicate (index + 1 - results.length) []
  padded.set index (padded.getD index [] ++ [(key, some v)])

/-- Record lookup in the result array, with a missing index reading as
the empty record. -/
def recGet (results : List ResultRec) (i : Nat) : ResultRec :=
  results.getD i []

/-- Lines 315–334: the independent-scraping fallback.  The
`foundElements` map iterates in field-insertion order; for each field,
every resolved element writes its value at its own index.  Records left
with zero keys are dropped by the final filter. -/
def fallbackArray (doc : SchemaDoc)
    (lists : List (String × FieldCfg)) : List ResultRec :=
  lists.foldl (fun results kv =>
    ((doc.findAllElements kv.2).enum.foldl (fun res ie =>
      setRecAt res ie.1 kv.1
        (getElementValue (some (doc.elemData ie.2)) kv.2.attr doc.loc))
      results)) []

/-- Line 334: records left with zero keys are dropped. -/
def fallbackResults (doc : SchemaDoc)
    (lists : List (String × FieldCfg)) : List ResultRec :=
  (fallbackArray doc lists).filter (fun r => r.length > 0)

/-- The largest resolved-element count over all fields. -/
def maxFieldLen (doc : SchemaDoc)
    (lists : List (String × FieldCfg)) : Nat :=
  (lists.map (fun kv => (doc.findAllElements kv.2).length)).foldl max 0

/-- Positional zipping as the spec words it: item `i` is assembled from
index `i` of every field's independently resolved element list, keeping
the fields whose list reaches index `i`. -/
def fieldsAt (doc : SchemaDoc) (lists : List (String × FieldCfg))
    (i : Nat) : ResultRec :=
  lists.filterMap (fun kv =>
    (doc.findAllElements kv.2)[i]?.map (fun e =>
      (kv.1, some (getElementValue (some (doc.elemData e)) kv.2.attr doc.loc))))

/-- Positional zipping, spec view: one item per index up to the longest
field list, dropping items left with zero populated fields. -/
def zippedResults (doc : SchemaDoc)
    (lists : List (String × FieldCfg)) : List ResultRec :=
  ((List.range (maxFieldLen doc lists)).map (fieldsAt doc lists)).filter
    (fun r => r.length > 0)

/-- Function `window.scrapeSchema` (lines 191–338): MBE grouping, with
the independent-scraping fallback when any MBE record has an undefined
field. -/
def scrapeSchema (doc : SchemaDoc)
    (lists : List (String × FieldCfg)) : List ResultRec :=
  if fallbackTriggered doc lists then fallbackResults doc lists
  else mbeResults doc lists

/-! ## `window.scrapeList` (lines 349–498)

Elements are opaque node identifiers here.  The shadow-DOM-aware query
helpers `queryShadowDOM` / `queryShadowDOMAll` (lines 353–425) bottom
out in host `querySelector(All)` calls over regular and shadow trees
(spec §6), so they are modelled as oracles of the document: the first /
all matches of a selector from the document, the first match of a
selector relative to a parent element, an element's direct children and
its class list. -/

/-- A record produced by `scrapeList`: ordered `label ↦ value` entries;
a `none` value is JavaScript `null` (the key is still present). -/
abbrev ListRec := List (String × Option String)

/-- The document as seen by `scrapeList`. -/
structure ListDoc where
  queryAll : String → List Nat
  queryOne : String → Option Nat
  queryFrom : Nat → String → Option Nat
  children : Nat → List Nat
  classList : Nat → List String
  elemData : Nat → SchemaElem
  loc : Loc

/-- Lines 433–452: the class-similarity fallback.  When `limit > 1` and
the full selector resolved at most one container, take the first match
of the selector's leading `>>`-segment as the container, the first full
match as the template, and keep the container's direct children sharing
at least `Math.floor(0.7 × template class count)` class tokens with the
template.  The floor of `0.7 × n` is computed here as `7 * n / 10` in
exact arithmetic (the source multiplies IEEE doubles; the values agree
at every class count a theorem below evaluates). -/
def similarityFallback (doc : ListDoc) (listSelector : String)
    (limit : Nat) (parentElements : List Nat) : List Nat :=
  if limit > 1 && parentElements.length ≤ 1 then
    let containerSelector :=
      ((jsSplit listSelector ">>").map jsTrim).headD ""
    match doc.queryOne containerSelector with
    | none => parentElements
    | some container =>
      let allChildren := doc.children container
      match doc.queryOne listSelector with
      | none => parentElements
      | some firstMatch =>
        let firstMatchClasses := doc.classList firstMatch
        allChildren.filter (fun element =>
          let elementClasses := doc.classList element
          let commonClasses :=
            firstMatchClasses.filter (fun cls => elementClasses.contains cls)
          commonClasses.length ≥ 7 * firstMatchClasses.length / 10)
  else parentElements

/-- Lines 466–483: the per-field attribute dispatch of `scrapeList`.
`innerText`/`innerHTML` trim (with `|| ''` forcing a string);
`src`/`href` resolve against `window.location.origin`; any other name is
a raw `getAttribute` whose `null` is stored as the entry value. -/
def scrapeListValue (el : SchemaElem) (attr : String) (loc : Loc) :
    Option String :=
  if attr == "innerText" then some (jsTrim el.innerText)
  else if attr == "innerHTML" then some (jsTrim el.innerHTML)
  else if attr == "src" then
    match getAttr el "src" with
    | some v =>
        if v == "" then none else some (resolveURL loc.scheme loc.host "" v)
    | none => none
  else if attr == "href" then
    match getAttr el "href" with
    | some v =>
        if v == "" then none else some (resolveURL loc.scheme loc.host "" v)
    | none => none
  else getAttr el attr

/-- Lines 457–485: build one record from a container.  Each field
queries only the final `>>`-segment of its selector relative to the
container; a field with no match contributes no key. -/
def scrapeListRecord (doc : ListDoc) (fields : List (String × FieldCfg))
    (parent : Nat) : ListRec :=
  fields.foldl (fun record kv =>
    let relativeSelector :=
      ((jsSplit kv.2.selector ">>").map jsTrim).getLastD ""
    match doc.queryFrom parent relativeSelector with
    | some fieldElement =>
        record ++ [(kv.1, scrapeListValue (doc.elemData fieldElement)
          kv.2.attr doc.loc)]
    | none => record) []

/-- Lines 429–452: resolve the accepted containers — the full-selector
matches, run through the similarity fallback. -/
def resolveParents (doc : ListDoc) (listSelector : String)
    (limit : Nat) : List Nat :=
  similarityFallback doc listSelector limit (doc.queryAll listSelector)

/-- Lines 455–490: the `for (const parent of parentElements)` pass —
stop at `limit` records, push only records with at least one key. -/
def scrapeListPass (doc : ListDoc) (fields : List (String × FieldCfg))
    (limit : Nat) (parents : List Nat) (acc : List ListRec) : List ListRec :=
  parents.foldl (fun scrapedData parent =>
    if limit ≤ scrapedData.length then scrapedData
    else
      let record := scrapeListRecord doc fields parent
      if record.length > 0 then scrapedData ++ [record] else scrapedData) acc

/-- Lines 427–495: the `while (scrapedData.length < limit)` loop.  The
`fuel` argument bounds the number of outer iterations of the source's
unboundedly-repeating loop; the theorems show the result is stable from
the first pass on. -/
def scrapeListLoop (doc : ListDoc) (listSelector : String)
    (fields : List (String × FieldCfg)) (limit : Nat) :
    Nat → List ListRec → List ListRec
  | 0, scrapedData => scrapedData
  | fuel + 1, scrapedData =>
      if scrapedData.length < limit then
        let parentElements := resolveParents doc listSelector limit
        let scrapedData2 :=
          scrapeListPass doc fields limit parentElements scrapedData
        if parentElements.length == 0 ||
            parentElements.length ≤ scrapedData2.length then
          scrapedData2
        else scrapeListLoop doc listSelector fields limit fuel scrapedData2
      else scrapedData

/-- Function `window.scrapeList` (lines 349–498), from an empty record
list. -/
def scrapeList (doc : ListDoc) (listSelector : String)
    (fields : List (String × FieldCfg)) (limit fuel : Nat) : List ListRec :=
  scrapeListLoop doc listSelector fields limit fuel []

/-! ## `scrapableHeuristics` (lines 41–126)

The browser window is explicit state: the scroll offset is threaded
through the computation and returned next to the result, and a fault
(`document.elementFromPoint` returning `null`, on which
`GetSelectorStructural(null)` raises a `TypeError` reading `tagName`)
is an `Except.error` that propagates without running `restoreScroll`.
Hit-testing depends on the current scroll offset, so the oracle takes
it as an argument.  The floating-point `size_deviation` metric is
modelled over `ℚ` (the claims never depend on its value). -/

/-- The browser window and host tree as used by `scrapableHeuristics`. -/
structure HBrowser where
  innerWidth : Nat
  innerHeight : Nat
  elementFromPoint : Nat → Nat → Nat → Nat → Option DomElem
  querySelectorAll : String → List DomElem

/-- Function `getGrid` (lines 59–70) with the default granularity
`0.005`: points spaced by `1 / 0.005 = 200` device pixels, starting at
`(0, 0)`, strictly below the viewport size. -/
def getGrid (innerWidth innerHeight : Nat) : List (Nat × Nat) :=
  (List.range ((innerWidth + 199) / 200)).flatMap (fun i =>
    (List.range ((innerHeight + 199) / 200)).map (fun j => (200 * i, 200 * j)))

/-- The running best candidate `maxSelector` (line 72). -/
structure MaxSel where
  selector : String
  metric : ℚ
deriving DecidableEq, Repr

/-- JavaScript `Math.max(...l)` over a non-empty spread of naturals. -/
def listMax : List Nat → Nat
  | [] => 0
  | x :: xs => xs.foldl max x

/-- JavaScript `Math.min(...l)` over a non-empty spread of naturals. -/
def listMin : List Nat → Nat
  | [] => 0
  | x :: xs => xs.foldl min x

/-- Callback `updateMaximumWithPoint` (lines 74–103).  A `null`
hit-test result faults (the source dereferences it); otherwise compute
the structural selector, filter its matches by area, skip sets smaller
than 3, score, and keep the better-scoring candidate while the match
count stays below `maxCountPerPage`. -/
def updateMaximumWithPoint (B : HBrowser) (maxCountPerPage minArea : Nat)
    (metricType : String) (scroll : Nat × Nat) (ms : MaxSel)
    (point : Nat × Nat) : Except Unit MaxSel :=
  match B.elementFromPoint scroll.1 scroll.2 point.1 point.2 with
  | none => .error ()
  | some currentElement =>
    let selector := GetSelectorStructural currentElement
    let elements := (B.querySelectorAll selector).filter
      (fun element => area element > minArea)
    if elements.length < 3 then .ok ms
    else
      let metric : Option ℚ :=
        if metricType == "total_area" then
          some ((elements.foldl (fun p x => p + area x) 0 : Nat) : ℚ)
        else if metricType == "size_deviation" then
          let sizes := elements.map area
          some (1 - (((listMax sizes : Nat) : ℚ) - ((listMin sizes : Nat) : ℚ))
            / ((listMax sizes : Nat) : ℚ))
        else none
      match metric with
      | some m =>
          if m > ms.metric && elements.length < maxCountPerPage then
            .ok ⟨selector, m⟩
          else .ok ms
      | none => .ok ms

/-- Lines 105–111: the sampling passes.  Each pass scrolls to
`(0, scroll × innerHeight)` and folds `updateMaximumWithPoint` over the
grid; a fault freezes the state, leaving the scroll offset where the
exception was raised. -/
def heuristicPasses (B : HBrowser) (maxCountPerPage minArea scrolls : Nat)
    (metricType : String) (initScroll : Nat × Nat) :
    Except Unit MaxSel × (Nat × Nat) :=
  (List.range scrolls).foldl (fun acc scroll =>
    match acc.1 with
    | .error _ => acc
    | .ok ms =>
      let cur := (0, scroll * B.innerHeight)
      match (getGrid B.innerWidth B.innerHeight).foldlM
          (updateMaximumWithPoint B maxCountPerPage minArea metricType cur)
          ms with
      | .ok ms2 => (.ok ms2, cur)
      | .error e => (.error e, cur))
    (.ok ⟨"body", 0⟩, initScroll)

/-- Function `scrapableHeuristics` (lines 41–126).  The result carries
the final scroll offset: `restoreScroll()` (line 113) runs only when the
sampling passes complete normally; a fault propagates with the scroll
offset left at the faulting pass's position.  The final generalization
loop is `genLoop`, whose guard never fires. -/
def scrapableHeuristics (B : HBrowser) (initScroll : Nat × Nat)
    (maxCountPerPage minArea scrolls : Nat) (metricType : String) :
    Except Unit (List DomElem) × (Nat × Nat) :=
  match heuristicPasses B maxCountPerPage minArea scrolls metricType
      initScroll with
  | (.error e, cur) => (.error e, cur)
  | (.ok ms, _) =>
    let out := B.querySelectorAll ms.selector
    (.ok (genLoop DomElem.parentElement out), initScroll)

/-! ## Concrete documents and elements used by the closed theorems -/

/-- Two list items under two distinct parents (a `UL` and an `OL`),
i.e. a match set whose elements already have pairwise-distinct,
non-null parents. -/
def distinctParentOut : List DomElem :=
  [DomElem.child "LI" 3 3 (DomElem.child "UL" 2 2 (DomElem.root "BODY" 1 1)),
   DomElem.child "LI" 3 3 (DomElem.child "OL" 2 2 (DomElem.root "BODY" 1 1))]

/-- A browser whose single grid point always hit-tests to a `BODY`
element, so sampling completes normally. -/
def heurOkBrowser : HBrowser :=
  ⟨1, 1, fun _ _ _ _ => some (DomElem.root "BODY" 10 10), fun _ => []⟩

/-- A browser whose hit-testing returns `null`, so the first sampled
point faults inside `updateMaximumWithPoint`. -/
def heurFaultBrowser : HBrowser :=
  ⟨1, 1, fun _ _ _ _ => none, fun _ => []⟩

/-- An element with a relative `href` attribute. -/
def hrefElem : SchemaElem := ⟨[("href", "page.html")], "hello", "hello", ""⟩

/-- A document location whose path is not the root. -/
def dirLoc : Loc := ⟨"https", "site.com", "/dir/index.html"⟩

/-- Field configurations for the schema examples. -/
def cfgA : FieldCfg := ⟨"selA", false, "innerText"⟩

def cfgB : FieldCfg := ⟨"selB", false, "innerText"⟩

def cfgT : FieldCfg := ⟨"selT", false, "innerText"⟩

def cfgU : FieldCfg := ⟨"selU", false, "innerText"⟩

/-- A schema with two fields. -/
def zipLists : List (String × FieldCfg) := [("a", cfgA), ("b", cfgB)]

/-- A document where field `a` resolves two elements whose minimal
bounding elements miss field `b`'s only element, so MBE grouping leaves
an undefined field. -/
def zipDoc : SchemaDoc :=
  ⟨fun cfg =>
      if cfg.selector == "selA" then [[0], [1]]
      else if cfg.selector == "selB" then [[2, 0]]
      else [],
   fun _ => ⟨[], "t", "t", ""⟩,
   ⟨"https", "site.com", "/p"⟩⟩

/-- A schema with a singleton seed field. -/
def singletonLists : List (String × FieldCfg) := [("t", cfgT), ("u", cfgU)]

/-- A document where the seed field resolves exactly one element. -/
def singletonDoc : SchemaDoc :=
  ⟨fun cfg =>
      if cfg.selector == "selT" then [[0]]
      else if cfg.selector == "selU" then [[1, 0]]
      else [],
   fun _ => ⟨[], "u", "u", ""⟩,
   ⟨"https", "site.com", "/p"⟩⟩

/-- A list-extractor document for the similarity fallback: the list
selector `UL >> LI.item` has exactly one full match (node 1), the
leading segment `UL` matches node 0, whose five direct children are the
full match and four siblings sharing two of the template's three class
tokens. -/
def simDoc : ListDoc :=
  ⟨fun _ => [],
   fun s =>
      if s == "UL" then some 0
      else if s == "UL >> LI.item" then some 1
      else none,
   fun _ _ => none,
   fun n => if n == 0 then [1, 2, 3, 4, 5] else [],
   fun n =>
      if n == 1 then ["a", "b", "c"]
      else if n == 0 then []
      else ["a", "b", "x"],
   fun _ => ⟨[], "", "", ""⟩,
   ⟨"https", "site.com", "/p"⟩⟩

/-- A list-extractor document with ten uniform row containers, each
yielding one populated field. -/
def rowsDoc : ListDoc :=
  ⟨fun s => if s == "DIV.row" then [1, 2, 3, 4, 5, 6, 7, 8, 9, 10] else [],
   fun _ => none,
   fun p sel => if sel == "SPAN.t" then some (100 + p) else none,
   fun _ => [],
   fun _ => [],
   fun _ => ⟨[], "v", "v", ""⟩,
   ⟨"https", "site.com", "/p"⟩⟩

/-- The single field of the row example. -/
def rowFields : List (String × FieldCfg) :=
  [("t", ⟨"DIV.row >> SPAN.t", false, "innerText"⟩)]

/-! # Theorems -/

/-! ## Helper lemmas -/

/-- The generalization loop is the identity: its guard ends in the
always-falsy `forEach` result. -/
theorem genLoop_eq_self {α : Type} [BEq α] (parentElement : α → Option α)
    (out : List α) : genLoop parentElement out = out := by
  rw [genLoop]
  simp [forEachTruthy]

/-! ## C1 — the generalization step of `scrapableHeuristics` -/

/-- C1: the claim states that for every match set whose elements already
have pairwise-distinct parents, at least one parent-substitution round
is performed.  The code performs none: the loop guard
`out.map(..).every(different) && out.forEach(..)` is always falsy
because `forEach` returns `undefined`.  On the concrete match set
`distinctParentOut` — pairwise-distinct non-null parents — the loop
leaves the set unchanged even though one substitution round would have
changed it. -/
theorem C1_generalization_loop_never_substitutes :
    everyDifferent (distinctParentOut.map DomElem.parentElement) = true ∧
    distinctParentOut.all (fun x => x.parentElement.isSome) = true ∧
    genLoop DomElem.parentElement distinctParentOut = distinctParentOut ∧
    distinctParentOut.map (fun x => x.parentElement.getD x)
      ≠ distinctParentOut :=
  ⟨by decide, by decide, genLoop_eq_self _ _, by decide⟩

/-! ## C2 — scroll restoration in `scrapableHeuristics` -/

/-- C2 (amended): the scroll offset observed after the call equals the
offset saved at entry whenever `scrapableHeuristics` completes
normally.  (On a fault the source never reaches `restoreScroll()`; see
the counterexample.) -/
theorem C2_scroll_restored_on_success (B : HBrowser)
    (initScroll : Nat × Nat) (maxCountPerPage minArea scrolls : Nat)
    (metricType : String) (out : List DomElem)
    (h : (scrapableHeuristics B initScroll maxCountPerPage minArea scrolls
      metricType).1 = Except.ok out) :
    (scrapableHeuristics B initScroll maxCountPerPage minArea scrolls
      metricType).2 = initScroll := by
  rcases hp : heuristicPasses B maxCountPerPage minArea scrolls metricType
      initScroll with ⟨r, cur⟩
  rw [scrapableHeuristics, hp] at h ⊢
  cases r with
  | error e => simp at h
  | ok ms => simp

/-- C2 witness: a concrete browser on which sampling completes
normally; the entry offset `(5, 7)` is restored. -/
theorem C2_scroll_restored_on_success_witness :
    (scrapableHeuristics heurOkBrowser (5, 7) 50 20000 3
      "size_deviation").2 = (5, 7) :=
  C2_scroll_restored_on_success heurOkBrowser (5, 7) 50 20000 3
    "size_deviation" (genLoop DomElem.parentElement []) rfl

/-- C2 counterexample: on a browser whose hit-testing faults at the
first grid point, the call exits with the fault and the scroll offset
left at the first sampling position `(0, 0)`, not the saved `(5, 7)` —
the claim's "restored on every exit path including failure" is false. -/
theorem C2_fault_skips_restore_counterexample :
    scrapableHeuristics heurFaultBrowser (5, 7) 50 20000 3 "size_deviation"
      = (Except.error (), (0, 0)) ∧ ((0, 0) : Nat × Nat) ≠ (5, 7) :=
  ⟨rfl, by decide⟩

/-! ## C8 — structural selectors of parents and siblings -/

/-- C8 (amended): for a non-`BODY` element with a parent, the
structural selector is the parent's selector extended by one
child-combinator step holding the tag name only; consequently two
*same-tag* siblings (same parent, any rendered sizes) produce identical
structural selectors.  (Different-tag siblings do not; see the
counterexample.) -/
theorem C8_structural_selector_amended (tag : String) (w h w2 h2 : Nat)
    (p : DomElem) (htag : tag ≠ "BODY") :
    GetSelectorStructural (DomElem.child tag w h p)
      = GetSelectorStructural p ++ " > " ++ tag ∧
    GetSelectorStructural (DomElem.child tag w h p)
      = GetSelectorStructural (DomElem.child tag w2 h2 p) := by
  have hb : (tag == "BODY") = false := by simpa using htag
  constructor
  · rw [GetSelectorStructural]
    simp [DomElem.tagName, hb]
  · rfl

/-- C8 witness: a `DIV` under `BODY` extends the parent's selector by
one step, and two same-tag siblings of different sizes coincide. -/
theorem C8_structural_selector_amended_witness :
    GetSelectorStructural (DomElem.child "DIV" 1 2 (DomElem.root "BODY" 0 0))
      = GetSelectorStructural (DomElem.root "BODY" 0 0) ++ " > " ++ "DIV" ∧
    GetSelectorStructural (DomElem.child "DIV" 1 2 (DomElem.root "BODY" 0 0))
      = GetSelectorStructural
          (DomElem.child "DIV" 3 4 (DomElem.root "BODY" 0 0)) :=
  C8_structural_selector_amended "DIV" 1 2 3 4 (DomElem.root "BODY" 0 0)
    (by decide)

/-- C8 counterexample: two sibling elements (same parent) with
different tag names produce different structural selectors, refuting
"two siblings always produce identical structural selectors". -/
theorem C8_sibling_counterexample :
    (DomElem.child "DIV" 1 1 (DomElem.root "BODY" 0 0)).parentElement
      = (DomElem.child "SPAN" 1 1 (DomElem.root "BODY" 0 0)).parentElement ∧
    GetSelectorStructural (DomElem.child "DIV" 1 1 (DomElem.root "BODY" 0 0))
      ≠ GetSelectorStructural
          (DomElem.child "SPAN" 1 1 (DomElem.root "BODY" 0 0)) :=
  ⟨rfl, by decide⟩

/-! ## C3 — image URL derivation in `window.scrape` -/

/-- Splitting never yields an empty segment list (as in JavaScript). -/
theorem jsSplitAux_ne_nil (sep : List Char) :
    ∀ (fuel : Nat) (s acc : List Char), jsSplitAux sep fuel s acc ≠ [] := by
  intro fuel
  induction fuel with
  | zero => intro s acc; cases s <;> simp [jsSplitAux]
  | succ n ih =>
      intro s acc
      cases s with
      | nil => simp [jsSplitAux]
      | cons c cs =>
          rw [jsSplitAux]
          split
          · simp
          · exact ih cs (c :: acc)

theorem jsSplit_ne_nil (s sep : String) : jsSplit s sep ≠ [] := by
  unfold jsSplit
  intro h
  exact jsSplitAux_ne_nil sep.data s.data.length s.data [] (by simpa using h)

/-- Over a candidate list with strictly increasing widths, the
maximum-width fold lands on the last candidate. -/
theorem foldl_pick_getLastD (t : List String) :
    ∀ b : String, strictChain ((b :: t).map candWidth) = true →
      t.foldl (fun x c => if candWidth c > candWidth x then c else x) b
        = (b :: t).getLastD "" := by
  induction t with
  | nil => intro b _; simp
  | cons c t2 ih =>
      intro b hch
      simp only [List.map_cons, strictChain, Bool.and_eq_true,
        decide_eq_true_eq] at hch
      have h1 : candWidth b < candWidth c := hch.1
      have h2 := ih c (by
        simpa [strictChain, List.map_cons] using hch.2)
      simp only [List.foldl_cons]
      rw [if_pos h1]
      rw [h2]
      simp [List.getLastD_cons]

/-- C3 (amended): with a non-empty `srcset`, the derived URL is the
*last listed* candidate — which is the widest one whenever the
candidates are listed in strictly ascending width order, but not in
general (see the counterexample); with no `srcset`, a `src` containing
`data:` yields no URL at all, and otherwise the `src` attribute is
used. -/
theorem C3_srcset_amended (x : Img) :
    (x.srcset ≠ "" →
        strictChain ((jsSplit x.srcset ", ").map candWidth) = true →
        imgUrlOf x = some (widestCandidate x.srcset)) ∧
    (x.srcset = "" → strContains x.src "data:" = true → imgUrlOf x = none) ∧
    (x.srcset = "" → strContains x.src "data:" = false →
        imgUrlOf x = some x.src) := by
  refine ⟨?_, ?_, ?_⟩
  · intro hne hch
    obtain ⟨a, t, hat⟩ : ∃ a t, jsSplit x.srcset ", " = a :: t := by
      cases hq : jsSplit x.srcset ", " with
      | nil => exact absurd hq (jsSplit_ne_nil _ _)
      | cons a t => exact ⟨a, t, rfl⟩
    rw [hat] at hch
    have hpick := foldl_pick_getLastD t a hch
    simp only [imgUrlOf, widestCandidate, hat]
    rw [if_pos (by simpa using hne)]
    simp only [List.headD_cons, List.foldl_cons, ite_self]
    rw [hpick]
  · intro h1 h2
    simp [imgUrlOf, h1, h2]
  · intro h1 h2
    simp [imgUrlOf, h1, h2]

/-- C3 witness: on `srcset="a.jpg 480w, b.jpg 1024w"` (ascending
widths) the derived URL is the widest candidate. -/
theorem C3_srcset_amended_witness :
    imgUrlOf ⟨"a.jpg 480w, b.jpg 1024w", ""⟩
      = some (widestCandidate "a.jpg 480w, b.jpg 1024w") :=
  (C3_srcset_amended ⟨"a.jpg 480w, b.jpg 1024w", ""⟩).1 (by decide) (by decide)

/-- C3 counterexample: with the candidates in descending width order
the code derives the *last* (narrowest) candidate `a.jpg`, not the
widest `b.jpg` claimed. -/
theorem C3_widest_counterexample :
    imgUrlOf ⟨"b.jpg 1024w, a.jpg 480w", ""⟩ = some "a.jpg" ∧
    widestCandidate "b.jpg 1024w, a.jpg 480w" = "b.jpg" ∧
    ("a.jpg" : String) ≠ "b.jpg" :=
  ⟨by decide, by decide, by decide⟩

/-! ## C4 — `getElementValue` dispatch -/

/-- C4 (amended): `href`/`src` resolve the raw attribute against the
document *origin* (`scheme://host`, with an empty base path — the
document's own path plays no part; see the counterexample), giving
`null` for an absent (or empty, hence falsy) attribute;
`innerText`/`textContent` return trimmed text; any other configured
name is a raw attribute lookup falling back to trimmed text. -/
theorem C4_value_extraction_amended (el : SchemaElem) (loc : Loc)
    (a v : String) :
    (getAttr el "href" = some v → v ≠ "" →
      getElementValue (some el) "href" loc
        = some (resolveURL loc.scheme loc.host "" v)) ∧
    (getAttr el "href" = none → getElementValue (some el) "href" loc = none) ∧
    (getAttr el "src" = some v → v ≠ "" →
      getElementValue (some el) "src" loc
        = some (resolveURL loc.scheme loc.host "" v)) ∧
    (getAttr el "src" = none → getElementValue (some el) "src" loc = none) ∧
    (getElementValue (some el) "innerText" loc = some (jsTrim el.innerText)) ∧
    (getElementValue (some el) "textContent" loc
      = some (jsTrim el.textContent)) ∧
    (a ≠ "href" → a ≠ "src" → a ≠ "innerText" → a ≠ "textContent" →
      getAttr el a = some v → v ≠ "" →
      getElementValue (some el) a loc = some v) ∧
    (a ≠ "href" → a ≠ "src" → a ≠ "innerText" → a ≠ "textContent" →
      getAttr el a = none →
      getElementValue (some el) a loc = some (jsTrim el.innerText)) := by
  refine ⟨fun h1 h2 => ?_, fun h1 => ?_, fun h1 h2 => ?_, fun h1 => ?_,
    ?_, ?_, fun g1 g2 g3 g4 h1 h2 => ?_, fun g1 g2 g3 g4 h1 => ?_⟩
  · simp [getElementValue, h1, h2]
  · simp [getElementValue, h1]
  · simp [getElementValue, h1, h2]
  · simp [getElementValue, h1]
  · simp [getElementValue]
  · simp [getElementValue]
  · simp [getElementValue, g1, g2, g3, g4, h1, h2]
  · simp [getElementValue, g1, g2, g3, g4, h1]

/-- C4 witness: a concrete element carrying `href="page.html"` resolves
against the origin, and `innerText` is trimmed. -/
theorem C4_value_extraction_amended_witness :
    getElementValue (some hrefElem) "href" dirLoc
      = some (resolveURL dirLoc.scheme dirLoc.host "" "page.html") ∧
    getElementValue (some hrefElem) "innerText" dirLoc
      = some (jsTrim hrefElem.innerText) :=
  ⟨(C4_value_extraction_amended hrefElem dirLoc "x" "page.html").1 rfl
      (by decide),
   (C4_value_extraction_amended hrefElem dirLoc "x" "page.html").2.2.2.2.1⟩

/-- C4 counterexample: for a document at
`https://site.com/dir/index.html`, a relative `href="page.html"`
resolves in the code to `https://site.com/page.html` (origin base), not
to `https://site.com/dir/page.html` as resolution against the full
document location — the claim's base — would give. -/
theorem C4_origin_counterexample :
    getElementValue (some hrefElem) "href" dirLoc
      = some "https://site.com/page.html" ∧
    getElementValueSpecLoc (some hrefElem) "href" dirLoc
      = some "https://site.com/dir/page.html" ∧
    (some "https://site.com/page.html" : Option String)
      ≠ some "https://site.com/dir/page.html" :=
  ⟨by decide, by decide, by decide⟩

/-! ## C6 — the class-similarity fallback of `scrapeList` -/

/-- C6 (amended): when `limit > 1`, the full selector resolved at most
one container, and both the leading-segment container and the first
full match exist, the accepted containers are exactly the direct
children of the container sharing at least `⌊0.7 × template class
count⌋` class tokens with the template — *including the first match
itself* whenever it is such a direct child (it shares all of its own
tokens), so the claim's example yields five containers, not four (see
the counterexample). -/
theorem C6_similarity_filter_amended (doc : ListDoc) (listSelector : String)
    (limit : Nat) (parentElements : List Nat) (container firstMatch : Nat)
    (h1 : 1 < limit) (h2 : parentElements.length ≤ 1)
    (h3 : doc.queryOne (((jsSplit listSelector ">>").map jsTrim).headD "")
      = some container)
    (h4 : doc.queryOne listSelector = some firstMatch) :
    similarityFallback doc listSelector limit parentElements
      = (doc.children container).filter (fun element =>
          ((doc.classList firstMatch).filter
            (fun cls => (doc.classList element).contains cls)).length
            ≥ 7 * (doc.classList firstMatch).length / 10) ∧
    (firstMatch ∈ doc.children container →
      firstMatch ∈ similarityFallback doc listSelector limit
        parentElements) := by
  have heq : similarityFallback doc listSelector limit parentElements
      = (doc.children container).filter (fun element =>
          ((doc.classList firstMatch).filter
            (fun cls => (doc.classList element).contains cls)).length
            ≥ 7 * (doc.classList firstMatch).length / 10) := by
    simp only [similarityFallback]
    rw [if_pos (by simp [h1, h2])]
    rw [h3, h4]
  refine ⟨heq, fun hmem => ?_⟩
  rw [heq]
  rw [List.mem_filter]
  refine ⟨hmem, ?_⟩
  have hself : (doc.classList firstMatch).filter
      (fun cls => (doc.classList firstMatch).contains cls)
        = doc.classList firstMatch := by
    rw [List.filter_eq_self]
    intro a ha
    simpa using ha
  rw [hself]
  simp only [decide_eq_true_eq]
  omega

/-- C6 witness: on the concrete five-child document the fallback is the
similarity filter, and the template (node 1) is among the accepted
containers. -/
theorem C6_similarity_filter_amended_witness :
    similarityFallback simDoc "UL >> LI.item" 10 [1]
      = ((simDoc.children 0).filter (fun element =>
          ((simDoc.classList 1).filter
            (fun cls => (simDoc.classList element).contains cls)).length
            ≥ 7 * (simDoc.classList 1).length / 10)) ∧
    1 ∈ similarityFallback simDoc "UL >> LI.item" 10 [1] := by
  have h := C6_similarity_filter_amended simDoc "UL >> LI.item" 10 [1] 0 1
    (by decide) (by decide) (by decide) (by decide)
  exact ⟨h.1, h.2 (by decide)⟩

/-- C6 counterexample: a list selector matching exactly one element
(node 1, classes `a b c`) whose container has four other direct
children each sharing two of the three class tokens yields *five*
accepted containers — the four siblings plus the template itself — not
the four the claim states. -/
theorem C6_template_included_counterexample :
    similarityFallback simDoc "UL >> LI.item" 10 [1] = [1, 2, 3, 4, 5] ∧
    (similarityFallback simDoc "UL >> LI.item" 10 [1]).length ≠ 4 :=
  ⟨by decide, by decide⟩

/-! ## C7 — record count and order of `scrapeList` -/

/-- One pass over containers that all produce non-empty records appends
exactly the records of the first `limit − acc.length` containers. -/
theorem scrapeListPass_all_nonempty (doc : ListDoc)
    (fields : List (String × FieldCfg)) (limit : Nat) :
    ∀ (parents : List Nat) (acc : List ListRec),
      (∀ p ∈ parents, (scrapeListRecord doc fields p).length > 0) →
      scrapeListPass doc fields limit parents acc
        = acc ++ ((parents.take (limit - acc.length)).map
            (scrapeListRecord doc fields)) := by
  intro parents
  induction parents with
  | nil => intro acc _; simp [scrapeListPass]
  | cons p ps ih =>
      intro acc hall
      have hp : (scrapeListRecord doc fields p).length > 0 :=
        hall p (by simp)
      have hps : ∀ q ∈ ps, (scrapeListRecord doc fields q).length > 0 :=
        fun q hq => hall q (by simp [hq])
      by_cases hlim : limit ≤ acc.length
      · have hstep : scrapeListPass doc fields limit (p :: ps) acc
            = scrapeListPass doc fields limit ps acc := by
          simp only [scrapeListPass, List.foldl_cons, if_pos hlim]
        rw [hstep, ih acc hps]
        have hz : limit - acc.length = 0 := by omega
        simp [hz]
      · have hstep : scrapeListPass doc fields limit (p :: ps) acc
            = scrapeListPass doc fields limit ps
                (acc ++ [scrapeListRecord doc fields p]) := by
          simp only [scrapeListPass, List.foldl_cons, if_neg hlim, if_pos hp]
        rw [hstep, ih _ hps]
        have hk : limit - acc.length = (limit - (acc.length + 1)) + 1 := by
          omega
        rw [hk]
        simp [List.take_succ_cons, List.append_assoc]

/-- Once `limit` records are collected the outer loop is inert. -/
theorem scrapeListLoop_at_limit (doc : ListDoc) (listSelector : String)
    (fields : List (String × FieldCfg)) (limit : Nat) :
    ∀ (fuel : Nat) (acc : List ListRec), limit ≤ acc.length →
      scrapeListLoop doc listSelector fields limit fuel acc = acc := by
  intro fuel acc h
  cases fuel with
  | zero => rfl
  | succ n =>
      rw [scrapeListLoop]
      rw [if_neg (by omega)]

/-- C7: with every accepted container producing at least one populated
field, any positive fuel returns exactly the records of the first
`min limit n` containers in document order (`n` the accepted-container
count) — one pass suffices and extra fuel changes nothing. -/
theorem C7_limit_take (doc : ListDoc) (listSelector : String)
    (fields : List (String × FieldCfg)) (limit fuel : Nat)
    (h : ∀ p ∈ resolveParents doc listSelector limit,
        (scrapeListRecord doc fields p).length > 0) :
    scrapeList doc listSelector fields limit (fuel + 1)
      = ((resolveParents doc listSelector limit).take
          (min limit (resolveParents doc listSelector limit).length)).map
        (scrapeListRecord doc fields) := by
  have htake : (resolveParents doc listSelector limit).take
        (min limit (resolveParents doc listSelector limit).length)
      = (resolveParents doc listSelector limit).take limit := by
    rw [List.take_eq_take]
    omega
  rw [htake]
  unfold scrapeList
  rw [scrapeListLoop]
  by_cases h0 : 0 < limit
  · rw [if_pos (by simpa using h0)]
    have hpass : scrapeListPass doc fields limit
        (resolveParents doc listSelector limit) []
        = ((resolveParents doc listSelector limit).take limit).map
            (scrapeListRecord doc fields) := by
      have := scrapeListPass_all_nonempty doc fields limit
        (resolveParents doc listSelector limit) [] h
      simpa using this
    simp only []
    rw [hpass]
    have hlen : (((resolveParents doc listSelector limit).take limit).map
        (scrapeListRecord doc fields)).length
        = min limit (resolveParents doc listSelector limit).length := by
      simp
    split
    · rfl
    · rename_i hcond
      apply scrapeListLoop_at_limit
      rw [hlen]
      simp only [Bool.or_eq_true, beq_iff_eq, decide_eq_true_eq,
        not_or, not_le] at hcond
      rw [hlen] at hcond
      omega
  · rw [if_neg (by omega)]
    have hl0 : limit = 0 := by omega
    simp [hl0]

/-- C7 witness: `limit = 3` over ten uniform rows returns exactly the
first three records, already at fuel 1. -/
theorem C7_limit_take_witness :
    scrapeList rowsDoc "DIV.row" rowFields 3 1
      = ((resolveParents rowsDoc "DIV.row" 3).take
          (min 3 (resolveParents rowsDoc "DIV.row" 3).length)).map
        (scrapeListRecord rowsDoc rowFields) :=
  C7_limit_take rowsDoc "DIV.row" rowFields 3 0 (by decide)

/-! ## C9 — image key indices in `window.scrape` -/

/-- Folding entry-appends equals flat-mapping the entries. -/
theorem foldl_append_flatMap {α β : Type} (g : α → List β) :
    ∀ (l : List α) (acc : List β),
      l.foldl (fun p x => p ++ g x) acc = acc ++ l.flatMap g := by
  intro l
  induction l with
  | nil => intro acc; simp
  | cons x xs ih =>
      intro acc
      simp [List.foldl_cons, ih, List.append_assoc]

/-- The keys of one image entry. -/
theorem imgEntry_keys (i : Nat) (x : Img) :
    (imgEntry i x).map Prod.fst
      = if imgAccepted x then ["img_" ++ toString i] else [] := by
  unfold imgEntry imgAccepted
  cases imgUrlOf x with
  | none => simp
  | some u =>
      by_cases hu : u != ""
      · simp [hu]
      · simp [hu]

/-- The image keys over an enumerated image list. -/
theorem enum_imgEntry_keys :
    ∀ l : List (Nat × Img),
      (l.flatMap (fun ix => imgEntry ix.1 ix.2)).map Prod.fst
        = (l.filter (fun ix => imgAccepted ix.2)).map
            (fun ix => "img_" ++ toString ix.1) := by
  intro l
  induction l with
  | nil => simp
  | cons ix l ih =>
      by_cases hx : imgAccepted ix.2
      · simp [List.filter_cons, hx, imgEntry_keys, ih]
      · simp [List.filter_cons, hx, imgEntry_keys, ih]

/-- The text keys over an enumerated line list depend only on the
indices. -/
theorem enum_record_keys (l : List String) :
    l.enum.map (fun ix => "record_" ++ pad4 ix.1)
      = (List.range l.length).map (fun i => "record_" ++ pad4 i) := by
  rw [List.enum_eq_zip_range]
  conv_rhs => rw [← List.map_fst_zip (List.range l.length) l (by simp)]
  rw [List.map_map]
  rfl

/-- C9: the image key `img_i` uses the element's index within the list
of *all* contained images — an excluded image's index is skipped, so
the remaining keys of the record are non-consecutive (concrete middle
conjunct) — while the `record_NNNN` text keys are numbered
independently, one per text line. -/
theorem C9_image_indices :
    (∀ imgs : List Img,
      (scrapeImgs imgs).map Prod.fst
        = (imgs.enum.filter (fun ix => imgAccepted ix.2)).map
            (fun ix => "img_" ++ toString ix.1)) ∧
    scrapeImgs [⟨"", "a.jpg"⟩, ⟨"", "data:x"⟩, ⟨"", "c.jpg"⟩]
      = [("img_0", "a.jpg"), ("img_2", "c.jpg")] ∧
    (∀ innerText : String,
      (scrapeTexts innerText).map Prod.fst
        = (List.range (jsSplit innerText "\n").length).map
            (fun i => "record_" ++ pad4 i)) := by
  refine ⟨fun imgs => ?_, by decide, fun innerText => ?_⟩
  · have h1 : scrapeImgs imgs
        = imgs.enum.flatMap (fun ix => imgEntry ix.1 ix.2) := by
      have := foldl_append_flatMap (fun ix : Nat × Img => imgEntry ix.1 ix.2)
        imgs.enum []
      simpa [scrapeImgs] using this
    rw [h1, enum_imgEntry_keys]
  · have hcollapse : (scrapeTexts innerText).map Prod.fst
        = (jsSplit innerText "\n").enum.map
            (fun ix => "record_" ++ pad4 ix.1) := by
      simp [scrapeTexts, List.map_map, Function.comp]
    rw [hcollapse, enum_record_keys]

/-! ## C10 — the MBE walk on a singleton seed -/

/-- Containment is reflexive. -/
theorem pathContains_refl : ∀ p : Path, pathContains p p = true := by
  intro p
  induction p with
  | nil => rfl
  | cons a as ih => simp [pathContains, ih]

/-- Containment is preserved by dropping the last step of the
container. -/
theorem pathContains_dropLast :
    ∀ c e : Path, pathContains c e = true →
      pathContains c.dropLast e = true := by
  intro c
  induction c with
  | nil => intro e h; simpa using h
  | cons a as ih =>
      intro e h
      cases e with
      | nil => simp [pathContains] at h
      | cons b bs =>
          simp only [pathContains, Bool.and_eq_true, beq_iff_eq] at h
          cases as with
          | nil => simp [List.dropLast, pathContains]
          | cons a2 as2 =>
              simp only [List.dropLast, pathContains, Bool.and_eq_true,
                beq_iff_eq]
              exact ⟨h.1, ih bs h.2⟩

/-- The document node is never a unique child: its `parentNode` is
`null`, so the filter keeps nothing. -/
theorem isUniqueChild_nil (elements : List Path) :
    isUniqueChild elements [] = false := by
  simp [isUniqueChild, parentNode]

/-- With a single seed element, every ancestor-or-self of the seed is a
unique child. -/
theorem isUniqueChild_singleton (e c : Path) (hne : c ≠ [])
    (hce : pathContains c e = true) :
    isUniqueChild [e] c = true := by
  have hpn : parentNode c = some c.dropLast := by
    simp [parentNode, hne]
  simp [isUniqueChild, hpn, pathContains_dropLast c e hce]

/-- With a single seed element the MBE walk ascends from any
ancestor-or-self of the seed all the way to the document node. -/
theorem mbeWalk_to_document (e : Path) :
    ∀ c : Path, pathContains c e = true → mbeWalk [e] (some c) = some [] := by
  intro c
  induction c using List.reverseRecOn with
  | nil =>
      intro _
      rw [mbeWalk, isUniqueChild_nil]
      simp
  | append_singleton cs a ih =>
      intro hce
      have hne : cs ++ [a] ≠ [] := by simp
      rw [mbeWalk, isUniqueChild_singleton e (cs ++ [a]) hne hce]
      have hpn : parentNode (cs ++ [a]) = some cs := by
        simp [parentNode, hne, List.dropLast_concat]
      rw [if_pos rfl, hpn]
      apply ih
      have := pathContains_dropLast (cs ++ [a]) e hce
      rwa [List.dropLast_concat] at this

/-- The document contains every element, so the first contained element
of a list is its head. -/
theorem find?_contains_document (l : List Path) :
    l.find? (fun e => pathContains [] e) = l.head? := by
  cases l with
  | nil => rfl
  | cons a t => simp [List.find?, pathContains]

/-- C10: when the seed field resolves exactly one element, the MBE walk
terminates at the document node, and the single MBE record pairs every
field with the first element of that field's resolved list anywhere in
the document; in general the MBE path yields exactly one record per
seed element. -/
theorem C10_singleton_seed_mbe (doc : SchemaDoc)
    (lists : List (String × FieldCfg)) (k : String) (cfg : FieldCfg)
    (e : Path)
    (hseed : getSeedKey doc lists = some (k, cfg))
    (hone : doc.findAllElements cfg = [e]) :
    mbeWalk [e] (some e) = some [] ∧
    mbeResults doc lists
      = [lists.map (fun kv => (kv.1,
          ((doc.findAllElements kv.2).head?).map (fun el =>
            getElementValue (some (doc.elemData el)) kv.2.attr doc.loc)))] ∧
    (∀ (doc2 : SchemaDoc) (lists2 : List (String × FieldCfg)) (k2 : String)
        (cfg2 : FieldCfg), getSeedKey doc2 lists2 = some (k2, cfg2) →
        (mbeResults doc2 lists2).length
          = (doc2.findAllElements cfg2).length) := by
  have hwalk : mbeWalk [e] (some e) = some [] :=
    mbeWalk_to_document e e (pathContains_refl e)
  refine ⟨hwalk, ?_, ?_⟩
  · unfold mbeResults
    rw [hseed]
    simp only [getMBEs, hone, List.map_cons, List.map_nil, hwalk]
    unfold mbeRecord
    simp [find?_contains_document]
  · intro doc2 lists2 k2 cfg2 hs2
    unfold mbeResults
    rw [hs2]
    simp [getMBEs]

/-- C10 witness: the concrete singleton-seed document. -/
theorem C10_singleton_seed_mbe_witness :
    mbeWalk [[0]] (some [0]) = some [] ∧
    mbeResults singletonDoc singletonLists
      = [singletonLists.map (fun kv => (kv.1,
          ((singletonDoc.findAllElements kv.2).head?).map (fun el =>
            getElementValue (some (singletonDoc.elemData el)) kv.2.attr
              singletonDoc.loc)))] := by
  have h := C10_singleton_seed_mbe singletonDoc singletonLists "t" cfgT [0]
    rfl rfl
  exact ⟨h.1, h.2.1⟩

/-! ## C5 — the positional-zipping fallback of `scrapeSchema`

The imperative fallback (outer loop over fields, inner loop over each
field's element indices) is shown to coincide with the spec's
positional zipping (outer loop over indices, inner loop over fields)
via a characterization of the result array: its length is the largest
field count and its record at index `i` holds exactly the fields whose
list reaches `i`, in field order. -/

theorem replicate_getD (m j : Nat) :
    (List.replicate m ([] : ResultRec)).getD j [] = [] := by
  induction m generalizing j with
  | zero => simp
  | succ n ih =>
      cases j with
      | zero => rfl
      | succ jj => simpa [List.replicate] using ih jj

theorem getD_append_rep (l : List ResultRec) (m : Nat) :
    ∀ j, (l ++ List.replicate m []).getD j [] = l.getD j [] := by
  induction l with
  | nil => intro j; simpa using replicate_getD m j
  | cons a t ih =>
      intro j
      cases j with
      | zero => rfl
      | succ jj => simpa using ih jj

theorem getD_set_self (l : List ResultRec) :
    ∀ (i : Nat) (x : ResultRec), i < l.length → (l.set i x).getD i [] = x := by
  induction l with
  | nil => intro i x h; simp at h
  | cons a t ih =>
      intro i x h
      cases i with
      | zero => rfl
      | succ ii => simpa using ih ii x (by simpa using h)

theorem getD_set_other (l : List ResultRec) :
    ∀ (i j : Nat) (x : ResultRec), i ≠ j →
      (l.set i x).getD j [] = l.getD j [] := by
  induction l with
  | nil => intro i j x _; simp
  | cons a t ih =>
      intro i j x h
      cases i with
      | zero =>
          cases j with
          | zero => exact absurd rfl h
          | succ jj => rfl
      | succ ii =>
          cases j with
          | zero => rfl
          | succ jj => simpa using ih ii jj x (by omega)

theorem length_setRecAt (rs : List ResultRec) (i : Nat) (k : String)
    (v : Option String) :
    (setRecAt rs i k v).length = max rs.length (i + 1) := by
  unfold setRecAt
  by_cases h : i < rs.length
  · simp only [if_pos h, List.length_set]
    omega
  · simp only [if_neg h, List.length_set, List.length_append,
      List.length_replicate]
    omega

theorem recGet_setRecAt_self (rs : List ResultRec) (i : Nat) (k : String)
    (v : Option String) :
    recGet (setRecAt rs i k v) i = recGet rs i ++ [(k, some v)] := by
  unfold setRecAt recGet
  by_cases h : i < rs.length
  · simp only [if_pos h]
    rw [getD_set_self rs i _ h]
  · simp only [if_neg h]
    have hlen : i < (rs ++ List.replicate (i + 1 - rs.length)
        ([] : ResultRec)).length := by
      simp only [List.length_append, List.length_replicate]
      omega
    rw [getD_set_self _ i _ hlen, getD_append_rep]

theorem recGet_setRecAt_other (rs : List ResultRec) (i j : Nat) (k : String)
    (v : Option String) (h : i ≠ j) :
    recGet (setRecAt rs i k v) j = recGet rs j := by
  unfold setRecAt recGet
  by_cases hc : i < rs.length
  · simp only [if_pos hc]
    rw [getD_set_other rs i j _ h]
  · simp only [if_neg hc]
    rw [getD_set_other _ i j _ h, getD_append_rep]

/-- Length of the result array after one field's inner loop. -/
theorem innerFold_length (doc : SchemaDoc) (kv : String × FieldCfg) :
    ∀ (elems : List Path) (s : Nat) (rs : List ResultRec),
      ((List.enumFrom s elems).foldl
        (fun res ie => setRecAt res ie.1 kv.1
          (getElementValue (some (doc.elemData ie.2)) kv.2.attr doc.loc))
        rs).length
      = if elems.isEmpty then rs.length
        else max rs.length (s + elems.length) := by
  intro elems
  induction elems with
  | nil => intro s rs; simp [List.enumFrom]
  | cons e es ih =>
      intro s rs
      simp only [List.enumFrom, List.foldl_cons]
      rw [ih (s + 1), length_setRecAt]
      cases es with
      | nil => simp
      | cons e2 es2 => simp [List.isEmpty]; omega

/-- Record at index `j` after one field's inner loop: the field's entry
is appended exactly when the field's element list reaches `j` (offset
by the enumeration start). -/
theorem innerFold_getD (doc : SchemaDoc) (kv : String × FieldCfg) :
    ∀ (elems : List Path) (s : Nat) (rs : List ResultRec) (j : Nat),
      recGet ((List.enumFrom s elems).foldl
        (fun res ie => setRecAt res ie.1 kv.1
          (getElementValue (some (doc.elemData ie.2)) kv.2.attr doc.loc))
        rs) j
      = if s ≤ j then
          (match elems[j - s]? with
           | some e => recGet rs j ++ [(kv.1, some (getElementValue
               (some (doc.elemData e)) kv.2.attr doc.loc))]
           | none => recGet rs j)
        else recGet rs j := by
  intro elems
  induction elems with
  | nil =>
      intro s rs j
      simp only [List.enumFrom, List.foldl_nil, List.getElem?_nil]
      by_cases h : s ≤ j <;> simp [h]
  | cons e es ih =>
      intro s rs j
      simp only [List.enumFrom, List.foldl_cons]
      rw [ih (s + 1)]
      by_cases h1 : s + 1 ≤ j
      · rw [if_pos h1, if_pos (by omega)]
        have hne : s ≠ j := by omega
        have hjs : j - s = (j - (s + 1)) + 1 := by omega
        rw [hjs]
        rw [List.getElem?_cons_succ]
        cases es[j - (s + 1)]? with
        | some e2 => simp [recGet_setRecAt_other rs s j _ _ hne]
        | none => simp [recGet_setRecAt_other rs s j _ _ hne]
      · rw [if_neg h1]
        by_cases h0 : s ≤ j
        · have hj : j = s := by omega
          subst hj
          rw [if_pos h0]
          have hz : j - j = 0 := by omega
          rw [hz]
          simp [recGet_setRecAt_self rs j]
        · rw [if_neg h0]
          exact recGet_setRecAt_other rs s j _ _ (by omega)

/-- Characterization of the whole fallback array: as long as the
largest field count, holding at index `j` exactly the fields whose
element list reaches `j`, in field order. -/
theorem fallbackArray_char (doc : SchemaDoc) :
    ∀ lists : List (String × FieldCfg),
      (fallbackArray doc lists).length = maxFieldLen doc lists ∧
      ∀ j, recGet (fallbackArray doc lists) j = fieldsAt doc lists j := by
  intro lists
  induction lists using List.reverseRecOn with
  | nil =>
      refine ⟨rfl, fun j => ?_⟩
      simp [fallbackArray, fieldsAt, recGet]
  | append_singleton ls kv ih =>
      have hfold : fallbackArray doc (ls ++ [kv])
          = (List.enumFrom 0 (doc.findAllElements kv.2)).foldl
              (fun res ie => setRecAt res ie.1 kv.1
                (getElementValue (some (doc.elemData ie.2)) kv.2.attr doc.loc))
              (fallbackArray doc ls) := by
        simp [fallbackArray, List.foldl_append, List.enum]
      have hmax : maxFieldLen doc (ls ++ [kv])
          = max (maxFieldLen doc ls) (doc.findAllElements kv.2).length := by
        simp [maxFieldLen, List.map_append, List.foldl_append]
      constructor
      · rw [hfold, innerFold_length doc kv, ih.1, hmax]
        cases doc.findAllElements kv.2 with
        | nil => simp
        | cons a t => simp [List.isEmpty]
      · intro j
        rw [hfold, innerFold_getD doc kv, if_pos (by omega)]
        have hfa : fieldsAt doc (ls ++ [kv]) j
            = fieldsAt doc ls j
              ++ (match (doc.findAllElements kv.2)[j]? with
                  | some e => [(kv.1, some (getElementValue
                      (some (doc.elemData e)) kv.2.attr doc.loc))]
                  | none => []) := by
          simp only [fieldsAt, List.filterMap_append]
          cases hx : (doc.findAllElements kv.2)[j]? with
          | some e => simp [List.filterMap_cons, hx]
          | none => simp [List.filterMap_cons, hx]
        rw [hfa]
        simp only [Nat.sub_zero]
        cases (doc.findAllElements kv.2)[j]? with
        | some e => simp [ih.2 j]
        | none => simp [ih.2 j]

/-- The fallback array is the index-major zipping table. -/
theorem fallbackArray_eq_map_range (doc : SchemaDoc)
    (lists : List (String × FieldCfg)) :
    fallbackArray doc lists
      = (List.range (maxFieldLen doc lists)).map (fieldsAt doc lists) := by
  have hc := fallbackArray_char doc lists
  apply List.ext_getElem (by simp [hc.1])
  intro i h1 h2
  have h3 := hc.2 i
  unfold recGet at h3
  rw [List.getD_eq_getElem _ _ h1] at h3
  rw [h3]
  simp

/-- The imperative fallback equals the spec's positional zipping. -/
theorem fallbackResults_eq_zipped (doc : SchemaDoc)
    (lists : List (String × FieldCfg)) :
    fallbackResults doc lists = zippedResults doc lists := by
  unfold fallbackResults zippedResults
  rw [fallbackArray_eq_map_range]

/-- C5: whenever MBE grouping leaves an undefined field in some record,
the MBE result is discarded and `scrapeSchema` returns the positional
zipping — item `i` assembled from index `i` of every field's
independently resolved list (a field whose list does not reach `i` is
simply missing from the record) with zero-field items dropped — and the
function is total (no fault). -/
theorem C5_positional_zip_fallback (doc : SchemaDoc)
    (lists : List (String × FieldCfg))
    (h : fallbackTriggered doc lists = true) :
    scrapeSchema doc lists = zippedResults doc lists := by
  unfold scrapeSchema
  rw [if_pos h]
  exact fallbackResults_eq_zipped doc lists

/-- C5 witness: on the concrete two-field document, field `b`'s only
element lies outside both seed MBEs, the trigger fires, and the result
is the positional zipping. -/
theorem C5_positional_zip_fallback_witness :
    fallbackTriggered zipDoc zipLists = true ∧
    scrapeSchema zipDoc zipLists = zippedResults zipDoc zipLists := by
  have hiu0 : isUniqueChild [[0], [1]] [0] = false := by decide
  have hiu1 : isUniqueChild [[0], [1]] [1] = false := by decide
  have hw0 : mbeWalk [[0], [1]] (some [0]) = some [0] := by
    rw [mbeWalk, hiu0]
    simp
  have hw1 : mbeWalk [[0], [1]] (some [1]) = some [1] := by
    rw [mbeWalk, hiu1]
    simp
  have hres : mbeResults zipDoc zipLists
      = [mbeRecord zipDoc zipLists [0], mbeRecord zipDoc zipLists [1]] := by
    have h0 : mbeResults zipDoc zipLists
        = (getMBEs [[0], [1]]).map
            (fun mbe => match mbe with
              | some m => mbeRecord zipDoc zipLists m
              | none => []) := rfl
    rw [h0]
    simp [getMBEs, hw0, hw1]
  have htrig : fallbackTriggered zipDoc zipLists = true := by
    unfold fallbackTriggered
    rw [hres]
    decide
  exact ⟨htrig, C5_positional_zip_fallback zipDoc zipLists htrig⟩

end Maxun
